import Mathlib

/-!
# Verification of the poker decision core

Shallow embedding of the decision core of the `poker-cv-project` repository
(`src/utils/poker_logic.py` and the non-CV part of `src/utils/cv_pipeline.py`),
together with theorems settling the frozen claims about it.

Modelling conventions:
* Python numbers (ints and floats used in scores, multipliers and pot odds)
  are modelled by `ℚ`; Python ints used as counts by `ℕ` / `ℤ`.
* A canonical treys card token (for example `"Tc"`) is consumed by the logic
  only through `_rank_val` (its rank value, an integer in 2..14) and
  `_suit_char` (its suit character).  The value type `PCard` records exactly
  those two read-outs, so list-of-`PCard` stands for the Python
  list-of-token-strings fed to the draw/texture/decision functions.
* Python `dict`s are association lists with `List.lookup`; Python `set`s are
  duplicate-free lists (`List.dedup` / `List.insert`), so that every
  definition evaluates by kernel reduction; `sorted` is
  `List.insertionSort (· ≤ ·)`.
* Functions that `raise` are embedded with `Except`.
-/

/-- A card as read by the poker logic: `rank` is `_RANK_ORDER[token[0]]`
(2..14 for well-formed tokens) and `suit` is `token[-1]`. -/
structure PCard where
  rank : ℕ
  suit : Char
deriving DecidableEq, Repr

/-- `_rank_val` from `poker_logic.py`: the rank value of a card. -/
def _rank_val (c : PCard) : ℕ := c.rank

/-- `_suit_char` from `poker_logic.py`: the suit character of a card. -/
def _suit_char (c : PCard) : Char := c.suit

/-- `_RANK_ORDER` dict: canonical rank character to rank value. -/
def _RANK_ORDER : List (Char × ℕ) :=
  [('2',2),('3',3),('4',4),('5',5),('6',6),('7',7),('8',8),('9',9),
   ('T',10),('J',11),('Q',12),('K',13),('A',14)]

/-- `_RANK_FROM_WORD` dict: rank word to canonical rank character (as a
one-character string, matching the Python values). -/
def _RANK_FROM_WORD : List (String × String) :=
  [("two","2"),("three","3"),("four","4"),("five","5"),("six","6"),
   ("seven","7"),("eight","8"),("nine","9"),("ten","T"),("jack","J"),
   ("queen","Q"),("king","K"),("ace","A")]

/-- `_SUIT_FROM_WORD` dict: suit word to canonical suit character. -/
def _SUIT_FROM_WORD : List (String × String) :=
  [("clubs","c"),("diamonds","d"),("hearts","h"),("spades","s")]

/-- Python substring containment on character lists (`needle in hay` for
strings): true iff `needle` occurs contiguously in `hay`; the empty needle is
contained in everything. -/
def pyListSub (needle : List Char) : List Char → Bool
  | [] => needle.isEmpty
  | c :: rest => needle.isPrefixOf (c :: rest) || pyListSub needle rest

/-- Python `needle in hay` on strings: substring containment. -/
def pySubstr (needle hay : String) : Bool :=
  pyListSub needle.toList hay.toList

/-- Python `str.lower()` (over the ASCII domain of this codec). -/
def pyLower (l : List Char) : List Char := l.map Char.toLower

/-- Python `str.strip()`: drop whitespace from both ends. -/
def pyStrip (l : List Char) : List Char :=
  ((l.dropWhile Char.isWhitespace).reverse.dropWhile Char.isWhitespace).reverse

/-- Fuelled worker for `pySplitOn` (fuel bounds the scan length so the
recursion is structural and kernel-reducible). -/
def pySplitOnGo (sep : List Char) : ℕ → List Char → List (List Char)
  | _, [] => [[]]
  | 0, l => [l]
  | fuel+1, c :: rest =>
    if sep.isPrefixOf (c :: rest) then
      [] :: pySplitOnGo sep fuel (List.drop (sep.length - 1) rest)
    else
      match pySplitOnGo sep fuel rest with
      | [] => [[c]]
      | g :: gs => (c :: g) :: gs

/-- Python `str.split(sep)` for a non-empty separator: split on each
non-overlapping left-to-right occurrence of `sep`. -/
def pySplitOn (sep : List Char) (l : List Char) : List (List Char) :=
  pySplitOnGo sep l.length l

/-- The error cases raised by `convert_to_treys_format`. -/
inductive ConvErr where
  | invalidFormat
  | unknownRank (r : String)
  | unknownSuit (s : String)
deriving DecidableEq, Repr

/-- `convert_to_treys_format` from `poker_logic.py`: parse a human-readable
card description (`"ten of clubs"`) into a canonical treys token (`"Tc"`).
Note the digit-rank test is Python's `rank_raw in '23456789'`, which is
substring containment. -/
def convert_to_treys_format (card_name : String) : Except ConvErr String :=
  let cn := pyStrip (pyLower card_name.toList)
  match pySplitOn " of ".toList cn with
  | [p1, p2] =>
    let rank_raw := String.mk (pyStrip p1)
    let suit_raw := String.mk (pyStrip p2)
    let rank_char? : Option String :=
      match _RANK_FROM_WORD.lookup rank_raw with
      | some c => some c
      | none =>
        if pySubstr rank_raw "23456789" then some rank_raw
        else if rank_raw = "10" then some "T"
        else none
    match rank_char? with
    | none => Except.error (ConvErr.unknownRank rank_raw)
    | some rank_char =>
      match _SUIT_FROM_WORD.lookup suit_raw with
      | none => Except.error (ConvErr.unknownSuit suit_raw)
      | some suit_char => Except.ok (rank_char ++ suit_char)
  | _ => Except.error ConvErr.invalidFormat

/-- Read a canonical token into a `PCard`, the way `_rank_val` and
`_suit_char` read a token string: rank from the uppercased first character
through `_RANK_ORDER`, suit from the lowercased last character. -/
def tok_card (t : String) : PCard :=
  ⟨(_RANK_ORDER.lookup ((t.toList.head?.getD ' ').toUpper)).getD 0,
   (t.toList.getLast?.getD ' ').toLower⟩

/-- `has_flush_draw` from `poker_logic.py`: some suit occurs at least `need`
times among hole + board. -/
def has_flush_draw (hole board : List PCard) (need : ℕ) : Bool :=
  let suits := (hole ++ board).map _suit_char
  suits.any (fun s => need ≤ suits.count s)

/-- `made_flush` from `poker_logic.py`. -/
def made_flush (hole board : List PCard) : Bool :=
  has_flush_draw hole board 5

/-- `_unique_sorted_ranks_with_wheel` from `poker_logic.py`: the set of ranks
present, with a virtual low ace (1) added when an ace (14) is present,
returned as an ascending sorted list. -/
def _unique_sorted_ranks_with_wheel (cards : List PCard) : List ℕ :=
  let ranks := (cards.map _rank_val).dedup
  let ranks := if 14 ∈ ranks then ranks.insert 1 else ranks
  ranks.insertionSort (· ≤ ·)

/-- The straight-draw flags computed by `has_straight_draw`. -/
structure DrawInfo where
  open_ended : Bool
  gutshot : Bool
  made_straight : Bool
  any_draw : Bool
deriving DecidableEq, Repr

/-- One iteration of the window loop in `has_straight_draw`, for the 5-card
window `{low, .., low+4}`: `acc` is the running `(open_ended, gutshot, made)`
triple.  `max(have) - min(have)` is read off the ascending sorted list of the
present ranks. -/
def straight_window_step (rset : List ℕ) (acc : Bool × Bool × Bool)
    (low : ℕ) : Bool × Bool × Bool :=
  let want : List ℕ := List.range' low 5
  let haveR := want.filter (fun r => r ∈ rset)
  let miss := 5 - haveR.length
  if miss = 0 then (acc.1, acc.2.1, true)
  else if miss = 1 then
    let sorted_have := haveR.insertionSort (· ≤ ·)
    if sorted_have.getLast?.getD 0 - sorted_have.head?.getD 0 = 4 then
      (acc.1, true, acc.2.2)
    else if sorted_have.getLast?.getD 0 - sorted_have.head?.getD 0 = 3 ∧
        sorted_have.length = 4 then
      (true, acc.2.1, acc.2.2)
    else (acc.1, true, acc.2.2)
  else acc

/-- `has_straight_draw` from `poker_logic.py`: scan the ten candidate straight
windows (low card 1..10) over the wheel-aware rank set of hole + board. -/
def has_straight_draw (hole board : List PCard) : DrawInfo :=
  let cards := hole ++ board
  let ranks := _unique_sorted_ranks_with_wheel cards
  if ranks.length < 4 then ⟨false, false, false, false⟩
  else
    let rset := ranks
    let r := (List.range' 1 10).foldl (straight_window_step rset)
      (false, false, false)
    ⟨r.1, r.2.1, r.2.2, r.2.2 || r.1 || r.2.1⟩

/-- `get_game_stage` from `poker_logic.py`. -/
def get_game_stage (board : List PCard) : String :=
  match board.length with
  | 3 => "flop"
  | 4 => "turn"
  | 5 => "river"
  | _ => "pre-flop"

/-- The `BoardTexture` record from `poker_logic.py`. -/
structure BoardTexture where
  stage : String
  paired : Bool
  trips_or_better : Bool
  monotone : Bool
  two_tone : Bool
  rainbow : Bool
  straighty : Bool
  high_card : Option ℕ
  low_card : Option ℕ
  ranks : List ℕ
deriving DecidableEq, Repr

/-- `analyze_board_texture` from `poker_logic.py`.  `len(Counter(xs))` is the
number of distinct elements (`xs.dedup.length`); `max(uniq) - min(uniq)` on
the ascending sorted `uniq` is its last element minus its first. -/
def analyze_board_texture (board : List PCard) : BoardTexture :=
  let stage := get_game_stage board
  let suits := board.map _suit_char
  let suit_cnt := suits.dedup.length
  let monotone := suit_cnt = 1
  let two_tone := suit_cnt = 2
  let rainbow := 3 ≤ suit_cnt
  let ranks := (board.map _rank_val).insertionSort (· ≥ ·)
  let paired := ranks.any (fun r => 2 ≤ ranks.count r)
  let trips_or_better := ranks.any (fun r => 3 ≤ ranks.count r)
  let uniq := _unique_sorted_ranks_with_wheel board
  let straighty := 3 ≤ uniq.length ∧ uniq.getLast?.getD 0 - uniq.head?.getD 0 ≤ 4
  ⟨stage, paired, trips_or_better,
   decide monotone, decide two_tone, decide rainbow, decide straighty,
   ranks.head?, ranks.getLast?, ranks⟩

/-- The `DecisionConfiguration` record from `poker_logic.py`; `stage_mult` is
the stage-multiplier dict. -/
structure DecisionConfiguration where
  max_players : ℤ
  base_raise_score : ℚ
  base_call_score : ℚ
  player_tighten_strength : ℚ
  stage_mult : List (String × ℚ)
  pot_odds_raise_cap : ℚ
  pot_odds_call_cap : ℚ
  draw_loosen_mult : ℚ
  monster_loosen_mult : ℚ
  texture_tighten_mult : ℚ
deriving DecidableEq, Repr

/-- The default `DecisionConfiguration()` (including the `stage_mult` filled
in by `__post_init__`). -/
def default_cfg : DecisionConfiguration :=
  ⟨10, 3500, 5000, 1/2,
   [("pre-flop", 13/10), ("flop", 12/10), ("turn", 1), ("river", 8/10)],
   35/100, 70/100, 85/100, 7/10, 115/100⟩

/-- The board-paired branch of the texture-vs-holding tighten check in
`decide_action`: the board is paired and the hole ranks are disjoint from the
board ranks. -/
def paired_tighten_branch (hole board : List PCard) : Bool :=
  (analyze_board_texture board).paired &&
    (hole.map _rank_val).dedup.all (fun r => !((board.map _rank_val).dedup.contains r))

/-- The monotone branch of the tighten check in `decide_action`: the board is
monotone and no hole card carries a board suit. -/
def monotone_tighten_branch (hole board : List PCard) : Bool :=
  (analyze_board_texture board).monotone &&
    !(hole.any (fun c => (board.map _suit_char).dedup.contains (_suit_char c)))

/-- The rank-gap condition inside the straighty branch of the tighten check in
`decide_action`: `hv` truthy, `hv[-1] < br[0]-1` and `hv[0] > br[-1]+1` over
the ascending sorted unique hole / board ranks (Python int arithmetic, hence
the casts to `ℤ`). -/
def straighty_gap_cond (hole board : List PCard) : Bool :=
  let hv := ((hole.map _rank_val).dedup).insertionSort (· ≤ ·)
  let br := ((board.map _rank_val).dedup).insertionSort (· ≤ ·)
  !hv.isEmpty &&
    decide ((hv.getLast?.getD 0 : ℤ) < (br.head?.getD 0 : ℤ) - 1) &&
    decide ((hv.head?.getD 0 : ℤ) > (br.getLast?.getD 0 : ℤ) + 1)

/-- The straighty branch of the tighten check in `decide_action`. -/
def straighty_tighten_branch (hole board : List PCard) : Bool :=
  (analyze_board_texture board).straighty && straighty_gap_cond hole board

/-- The sequential tighten computation of `decide_action` lines 186-198: each
later branch runs only when `tighten` is still false. -/
def texture_tighten_cond (hole board : List PCard) : Bool :=
  let tighten := paired_tighten_branch hole board
  let tighten := tighten || (monotone_tighten_branch hole board && !tighten)
  let tighten := tighten || (straighty_tighten_branch hole board && !tighten)
  tighten

/-- The `adjusted` score computed by `decide_action` lines 165-200: raw score
times stage factor and player factor, then the monster / draw / texture
multipliers in source order. -/
def adjusted_score (hand_score : ℚ) (num_players : ℤ) (hole board : List PCard)
    (pot_odds : ℚ) (cfg : DecisionConfiguration) : ℚ :=
  let stage := get_game_stage board
  let stage_factor := (cfg.stage_mult.lookup stage).getD 1
  let np := max 2 (min num_players cfg.max_players)
  let frac : ℚ :=
    if 2 < cfg.max_players then (np - 2 : ℤ) / ((cfg.max_players - 2 : ℤ) : ℚ)
    else 0
  let player_factor := 1 + cfg.player_tighten_strength * frac
  let adjusted := hand_score * stage_factor * player_factor
  let fd := has_flush_draw hole board 4
  let made_f := made_flush hole board
  let sd := has_straight_draw hole board
  let adjusted :=
    if made_f || sd.made_straight then adjusted * cfg.monster_loosen_mult
    else adjusted
  let adjusted :=
    if (stage = "flop" ∨ stage = "turn") ∧ (fd || sd.any_draw) = true ∧
        pot_odds ≤ cfg.pot_odds_call_cap then
      adjusted * cfg.draw_loosen_mult
    else adjusted
  let adjusted :=
    if texture_tighten_cond hole board then adjusted * cfg.texture_tighten_mult
    else adjusted
  adjusted

/-- The threshold ladder of `decide_action` lines 202-215, mapping the
adjusted score and pot odds to the action string (`'raise'`, `'call'` or
`'fold'`, exactly as in the source). -/
def threshold_ladder (adjusted pot_odds : ℚ) (cfg : DecisionConfiguration) :
    String :=
  let exp_call := cfg.pot_odds_call_cap ≤ pot_odds
  let exp_raise := cfg.pot_odds_raise_cap ≤ pot_odds
  let monster := adjusted < 1/2 * cfg.base_raise_score
  if adjusted < cfg.base_raise_score ∧ ¬ exp_raise then "raise"
  else if adjusted < cfg.base_raise_score ∧ exp_raise ∧ monster then "raise"
  else if adjusted < cfg.base_call_score ∧ ¬ exp_call then "call"
  else if adjusted < cfg.base_call_score ∧ exp_call ∧ monster then "call"
  else "fold"

/-- `decide_action` from `poker_logic.py` (the action it returns; the
explanation payload is a report of the intermediate values and is not
modelled). -/
def decide_action (hand_score : ℚ) (num_players : ℤ) (hole board : List PCard)
    (pot_odds : ℚ) (cfg : DecisionConfiguration) : String :=
  threshold_ladder (adjusted_score hand_score num_players hole board pot_odds cfg)
    pot_odds cfg

/-- Strength order on the three actions: fold < call < raise. -/
def actionRank (a : String) : ℕ :=
  if a = "raise" then 2 else if a = "call" then 1 else 0

/-- Python `str.replace(old, new)` for a non-empty `old`: replace each
non-overlapping left-to-right occurrence. -/
def pyReplace (s old new : List Char) : List Char :=
  List.intercalate new (pySplitOn old s)

/-- The validation errors raised by `run_hand_analysis` (conversion errors
from the card codec propagate unchanged). -/
inductive PipeErr where
  | cardError (e : ConvErr)
  | insufficientBoardCards (n : ℕ)
  | invalidHoleCount
deriving DecidableEq, Repr

/-- The result dict of `run_hand_analysis` (the nested explanation payload, a
report of intermediate values, is not modelled). -/
structure AnalysisResult where
  community_human : List String
  community_treys : List String
  hole_human : List String
  hole_treys : List String
  hand_score : ℚ
  stage : String
  pot_odds : ℚ
  action : String
deriving DecidableEq, Repr

/-- `run_hand_analysis` from `cv_pipeline.py`, downstream of card
recognition: `board_human` is the label list returned by `predict_cards` and
`evaluator` is the external treys hand-strength evaluator, taken as a black
box.  Conversion of board and hole labels, the board-size and hole-count
validation, evaluation, pot odds and the decision follow the source order. -/
def run_hand_analysis (board_human0 : List String) (hole_input : String)
    (num_players : ℤ) (call_amt pot_before : ℚ) (cfg : DecisionConfiguration)
    (evaluator : List String → List String → ℚ) :
    Except PipeErr AnalysisResult :=
  let board_human := board_human0.filter (fun c => c ≠ "joker")
  match board_human.mapM convert_to_treys_format with
  | Except.error e => Except.error (PipeErr.cardError e)
  | Except.ok board_treys =>
    let hole_human :=
      (pySplitOn [','] (pyReplace hole_input.toList " and ".toList [','])).map
        (fun c => String.mk (pyLower (pyStrip c)))
    match hole_human.mapM convert_to_treys_format with
    | Except.error e => Except.error (PipeErr.cardError e)
    | Except.ok hole_treys =>
      if board_treys.length < 3 then
        Except.error (PipeErr.insufficientBoardCards board_treys.length)
      else if hole_treys.length ≠ 2 then Except.error PipeErr.invalidHoleCount
      else
        let score := evaluator board_treys hole_treys
        let pot_odds :=
          if pot_before + call_amt ≠ 0 then call_amt / (pot_before + call_amt)
          else 0
        let action := decide_action score num_players (hole_treys.map tok_card)
          (board_treys.map tok_card) pot_odds cfg
        Except.ok ⟨board_human, board_treys, hole_human, hole_treys, score,
          get_game_stage (board_treys.map tok_card), pot_odds, action⟩

/-! ## Helper lemmas about sorted lists and lookups -/

lemma sorted_head?_le {l : List ℕ} (hs : List.Sorted (· ≤ ·) l) {a : ℕ}
    (ha : a ∈ l) : l.head?.getD 0 ≤ a := by
  cases l with
  | nil => cases ha
  | cons x xs =>
    simp only [List.head?_cons, Option.getD_some]
    rcases List.mem_cons.mp ha with rfl | hmem
    · exact le_refl _
    · exact List.rel_of_sorted_cons hs _ hmem

lemma le_sorted_getLast? : ∀ {l : List ℕ}, List.Sorted (· ≤ ·) l →
    ∀ {a : ℕ}, a ∈ l → a ≤ l.getLast?.getD 0 := by
  intro l
  induction l with
  | nil => intro _ a ha; cases ha
  | cons x xs ih =>
    intro hs a ha
    rcases List.mem_cons.mp ha with h1 | hmem
    · subst h1
      cases xs with
      | nil => simp [List.getLast?]
      | cons y ys =>
        rw [List.getLast?_cons_cons]
        have h1y : a ≤ y := List.rel_of_sorted_cons hs y (by simp)
        exact le_trans h1y (ih hs.of_cons (by simp))
    · cases xs with
      | nil => cases hmem
      | cons y ys =>
        rw [List.getLast?_cons_cons]
        exact ih hs.of_cons hmem

lemma head?_getD_mem {l : List ℕ} (h : l ≠ []) : l.head?.getD 0 ∈ l := by
  cases l with
  | nil => exact absurd rfl h
  | cons x xs => simp

lemma getLast?_getD_mem {l : List ℕ} (h : l ≠ []) : l.getLast?.getD 0 ∈ l := by
  rw [List.getLast?_eq_getLast _ h]
  simpa using List.getLast_mem h

lemma mem_of_lookup_eq_some {α β : Type} [BEq α] [LawfulBEq α]
    {l : List (α × β)} {k : α} {b : β} (h : l.lookup k = some b) :
    (k, b) ∈ l := by
  rcases List.lookup_eq_some_iff.mp h with ⟨l₁, l₂, rfl, _⟩
  simp

/-! ## C2: the digit-rank membership test -/

/-- C2: the rank token `"34"` is none of the thirteen word forms, none of the
single digits 2..9 and not `"10"`, yet `convert_to_treys_format` accepts it:
Python's `rank_raw in '23456789'` is substring containment, so the multi-digit
token `"34"` passes the digit test and the invalid token `"34c"` is returned
instead of an UnknownRank failure. -/
theorem convert_accepts_multidigit_rank :
    convert_to_treys_format "34 of clubs" = Except.ok "34c" := by rfl

/-! ## C4: the wheel scenario -/

/-- C4: for hole = {ace of spades, two of spades} and
board = {three of hearts, four of clubs, five of diamonds}, straight
detection finds the made ace-low wheel straight, and the board texture is
rainbow (neither monotone nor two-tone). -/
theorem wheel_case_straight_and_rainbow :
    (has_straight_draw [⟨14,'s'⟩, ⟨2,'s'⟩] [⟨3,'h'⟩, ⟨4,'c'⟩, ⟨5,'d'⟩]).made_straight
        = true ∧
      (analyze_board_texture [⟨3,'h'⟩, ⟨4,'c'⟩, ⟨5,'d'⟩]).monotone = false ∧
      (analyze_board_texture [⟨3,'h'⟩, ⟨4,'c'⟩, ⟨5,'d'⟩]).two_tone = false ∧
      (analyze_board_texture [⟨3,'h'⟩, ⟨4,'c'⟩, ⟨5,'d'⟩]).rainbow = true := by
  decide

/-! ## C5: suit-distribution exclusivity -/

/-- C5: for every non-empty board exactly one of monotone, two-tone and
rainbow holds in the computed board texture. -/
theorem suit_distribution_exclusive (board : List PCard) (h : board ≠ []) :
    (analyze_board_texture board).monotone.toNat +
      (analyze_board_texture board).two_tone.toNat +
      (analyze_board_texture board).rainbow.toNat = 1 := by
  have hmap : board.map _suit_char ≠ [] := by
    simpa using h
  have hded : (board.map _suit_char).dedup ≠ [] :=
    fun hnil => hmap ((List.dedup_eq_nil _).mp hnil)
  have h1 : 1 ≤ (board.map _suit_char).dedup.length :=
    List.length_pos.mpr hded
  simp only [analyze_board_texture]
  by_cases e1 : (board.map _suit_char).dedup.length = 1 <;>
    by_cases e2 : (board.map _suit_char).dedup.length = 2 <;>
    by_cases e3 : 3 ≤ (board.map _suit_char).dedup.length <;>
    simp [e1, e2, e3] <;> omega

/-! ## C9: an ace on the board defeats the straighty test -/

/-- C9: whenever the board contains an ace, the wheel-aware unique rank set
contains both 1 and 14, so its span is at least 13 and the `max − min ≤ 4`
test fails: `analyze_board_texture` reports `straighty = false`. -/
theorem ace_board_not_straighty (board : List PCard) (c : PCard)
    (hc : c ∈ board) (hr : _rank_val c = 14) :
    (analyze_board_texture board).straighty = false := by
  have h14R : 14 ∈ (board.map _rank_val).dedup :=
    List.mem_dedup.mpr (List.mem_map.mpr ⟨c, hc, hr⟩)
  simp only [analyze_board_texture, _unique_sorted_ranks_with_wheel, if_pos h14R]
  rw [decide_eq_false_iff_not]
  rintro ⟨-, hspan⟩
  have hsorted :=
    List.sorted_insertionSort (· ≤ ·) (((board.map _rank_val).dedup).insert 1)
  have h1mem : (1:ℕ) ∈
      (((board.map _rank_val).dedup).insert 1).insertionSort (· ≤ ·) :=
    (List.perm_insertionSort _ _).mem_iff.mpr (List.mem_insert_self 1 _)
  have h14mem : (14:ℕ) ∈
      (((board.map _rank_val).dedup).insert 1).insertionSort (· ≤ ·) :=
    (List.perm_insertionSort _ _).mem_iff.mpr (List.mem_insert_of_mem h14R)
  have hlow := sorted_head?_le hsorted h1mem
  have hhigh := le_sorted_getLast? hsorted h14mem
  omega

/-! ## C10: the straighty tighten branch is dead code -/

/-- C10: for non-empty hole and board, the rank-gap condition of the straighty
tighten branch (`hv[-1] < br[0]-1` and `hv[0] > br[-1]+1`) is unsatisfiable,
so the texture tighten multiplier can only be triggered by the paired-board
or monotone-board branches. -/
theorem straighty_gap_cond_unsat (hole board : List PCard)
    (hh : hole ≠ []) (hb : board ≠ []) :
    straighty_gap_cond hole board = false ∧
      texture_tighten_cond hole board =
        (paired_tighten_branch hole board || monotone_tighten_branch hole board) := by
  have hgap : straighty_gap_cond hole board = false := by
    rw [Bool.eq_false_iff]
    intro htrue
    simp only [straighty_gap_cond, Bool.and_eq_true, Bool.not_eq_true',
      List.isEmpty_eq_false, decide_eq_true_eq] at htrue
    obtain ⟨⟨hne, h1⟩, h2⟩ := htrue
    have hbr : ((board.map _rank_val).dedup).insertionSort (· ≤ ·) ≠ [] := by
      have : (board.map _rank_val).dedup ≠ [] := by
        intro hnil
        exact hb (by simpa using (List.dedup_eq_nil _).mp hnil)
      intro hnil
      apply this
      have := List.length_insertionSort (· ≤ ·) (board.map _rank_val).dedup
      rw [hnil] at this
      exact List.length_eq_zero.mp this.symm
    have hvsorted :=
      List.sorted_insertionSort (· ≤ ·) (hole.map _rank_val).dedup
    have hbsorted :=
      List.sorted_insertionSort (· ≤ ·) (board.map _rank_val).dedup
    have hv1 := le_sorted_getLast? hvsorted (head?_getD_mem hne)
    have hb1 := le_sorted_getLast? hbsorted (head?_getD_mem hbr)
    omega
  refine ⟨hgap, ?_⟩
  have hst : straighty_tighten_branch hole board = false := by
    simp [straighty_tighten_branch, hgap]
  cases hp : paired_tighten_branch hole board <;>
    cases hm : monotone_tighten_branch hole board <;>
    simp [texture_tighten_cond, hst, hp, hm]

/-! ## C3: classification of one-miss straight windows -/

/-- C3: for a 5-card straight window from which exactly one rank of the rank
set is missing, the window step classifies open-ended exactly when the 4
present ranks are a contiguous run (`max − min = 3`); every other 1-miss
shape — in particular the full-span shape where the missing rank is internal
(`max − min = 4`) — is classified gutshot. -/
theorem straight_window_one_miss (rset : List ℕ) (low : ℕ)
    (h : ((List.range' low 5).filter (fun r => r ∈ rset)).length = 4) :
    (straight_window_step rset (false, false, false) low = (true, false, false) ↔
        (((List.range' low 5).filter (fun r => r ∈ rset)).insertionSort
            (· ≤ ·)).getLast?.getD 0 -
          (((List.range' low 5).filter (fun r => r ∈ rset)).insertionSort
            (· ≤ ·)).head?.getD 0 = 3) ∧
      (straight_window_step rset (false, false, false) low = (false, true, false) ↔
        (((List.range' low 5).filter (fun r => r ∈ rset)).insertionSort
            (· ≤ ·)).getLast?.getD 0 -
          (((List.range' low 5).filter (fun r => r ∈ rset)).insertionSort
            (· ≤ ·)).head?.getD 0 ≠ 3) := by
  have hlen : (((List.range' low 5).filter (fun r => r ∈ rset)).insertionSort
      (· ≤ ·)).length = 4 := by
    simpa [List.length_insertionSort] using h
  simp only [straight_window_step, h]
  norm_num
  split_ifs with h4 h3 <;> simp_all

/-! ## Decision-engine lemmas -/

lemma ite_mul_pos {c : Prop} [Decidable c] {a m : ℚ} (ha : 0 < a)
    (hm : 0 < m) : 0 < if c then a * m else a := by
  split_ifs
  · exact mul_pos ha hm
  · exact ha

lemma adjusted_score_factor (s : ℚ) (np : ℤ) (hole board : List PCard)
    (po : ℚ) (cfg : DecisionConfiguration) :
    adjusted_score s np hole board po cfg =
      s * adjusted_score 1 np hole board po cfg := by
  simp only [adjusted_score]
  split_ifs <;> ring

lemma adjusted_score_one_nonneg (np : ℤ) (hole board : List PCard) (po : ℚ)
    (cfg : DecisionConfiguration)
    (hsm : ∀ p ∈ cfg.stage_mult, (0:ℚ) < p.2)
    (hpts : 0 ≤ cfg.player_tighten_strength)
    (hm : 0 < cfg.monster_loosen_mult) (hd : 0 < cfg.draw_loosen_mult)
    (ht : 0 < cfg.texture_tighten_mult) :
    0 ≤ adjusted_score 1 np hole board po cfg := by
  have hsf : 0 < (cfg.stage_mult.lookup (get_game_stage board)).getD 1 := by
    cases hl : cfg.stage_mult.lookup (get_game_stage board) with
    | none => norm_num
    | some v => simpa using hsm _ (mem_of_lookup_eq_some hl)
  have hfrac : 0 ≤ (if 2 < cfg.max_players then
      ((max 2 (min np cfg.max_players) - 2 : ℤ) : ℚ) /
        ((cfg.max_players - 2 : ℤ) : ℚ)
    else 0) := by
    split_ifs with h2
    · apply div_nonneg
      · have hn : (0:ℤ) ≤ max 2 (min np cfg.max_players) - 2 := by
          have := le_max_left (2:ℤ) (min np cfg.max_players)
          omega
        exact_mod_cast hn
      · have hdn : (0:ℤ) ≤ cfg.max_players - 2 := by omega
        exact_mod_cast hdn
    · exact le_refl 0
  have hpf : 0 < 1 + cfg.player_tighten_strength *
      (if 2 < cfg.max_players then
        ((max 2 (min np cfg.max_players) - 2 : ℤ) : ℚ) /
          ((cfg.max_players - 2 : ℤ) : ℚ)
      else 0) := by
    have := mul_nonneg hpts hfrac
    linarith
  simp only [adjusted_score]
  exact le_of_lt (ite_mul_pos (ite_mul_pos (ite_mul_pos
    (mul_pos (mul_pos one_pos hsf) hpf) hm) hd) ht)

/-- The raise region of the threshold ladder. -/
def raise_cond (x po : ℚ) (cfg : DecisionConfiguration) : Prop :=
  (x < cfg.base_raise_score ∧ ¬ cfg.pot_odds_raise_cap ≤ po) ∨
    (x < cfg.base_raise_score ∧ cfg.pot_odds_raise_cap ≤ po ∧
      x < 1/2 * cfg.base_raise_score)

/-- The call region of the threshold ladder (given the raise region missed). -/
def call_cond (x po : ℚ) (cfg : DecisionConfiguration) : Prop :=
  (x < cfg.base_call_score ∧ ¬ cfg.pot_odds_call_cap ≤ po) ∨
    (x < cfg.base_call_score ∧ cfg.pot_odds_call_cap ≤ po ∧
      x < 1/2 * cfg.base_raise_score)

lemma threshold_ladder_eq_raise_iff (x po : ℚ) (cfg : DecisionConfiguration) :
    threshold_ladder x po cfg = "raise" ↔ raise_cond x po cfg := by
  simp only [threshold_ladder, raise_cond]
  constructor
  · intro h
    split_ifs at h with h1 h2 h3 h4
    · exact Or.inl h1
    · exact Or.inr h2
    · simp at h
    · simp at h
    · simp at h
  · intro h
    rcases h with h1 | h2
    · rw [if_pos h1]
    · by_cases h1' : x < cfg.base_raise_score ∧ ¬ cfg.pot_odds_raise_cap ≤ po
      · rw [if_pos h1']
      · rw [if_neg h1', if_pos h2]

lemma threshold_ladder_eq_call_iff (x po : ℚ) (cfg : DecisionConfiguration) :
    threshold_ladder x po cfg = "call" ↔
      ¬ raise_cond x po cfg ∧ call_cond x po cfg := by
  simp only [threshold_ladder, raise_cond, call_cond]
  constructor
  · intro h
    split_ifs at h with h1 h2 h3 h4
    · simp at h
    · simp at h
    · exact ⟨fun hr => hr.elim h1 h2, Or.inl h3⟩
    · exact ⟨fun hr => hr.elim h1 h2, Or.inr h4⟩
    · simp at h
  · rintro ⟨hnr, hc⟩
    have h1 : ¬(x < cfg.base_raise_score ∧ ¬ cfg.pot_odds_raise_cap ≤ po) :=
      fun a => hnr (Or.inl a)
    have h2 : ¬(x < cfg.base_raise_score ∧ cfg.pot_odds_raise_cap ≤ po ∧
        x < 1/2 * cfg.base_raise_score) := fun a => hnr (Or.inr a)
    rw [if_neg h1, if_neg h2]
    by_cases h3 : x < cfg.base_call_score ∧ ¬ cfg.pot_odds_call_cap ≤ po
    · rw [if_pos h3]
    · rcases hc with hc3 | hc4
      · exact absurd hc3 h3
      · rw [if_neg h3, if_pos hc4]

lemma threshold_ladder_eq_fold_iff (x po : ℚ) (cfg : DecisionConfiguration) :
    threshold_ladder x po cfg = "fold" ↔
      ¬ raise_cond x po cfg ∧ ¬ call_cond x po cfg := by
  simp only [threshold_ladder, raise_cond, call_cond]
  constructor
  · intro h
    split_ifs at h with h1 h2 h3 h4
    · simp at h
    · simp at h
    · simp at h
    · simp at h
    · exact ⟨fun hr => hr.elim h1 h2, fun hc => hc.elim h3 h4⟩
  · rintro ⟨hnr, hnc⟩
    rw [if_neg (fun a => hnr (Or.inl a)), if_neg (fun a => hnr (Or.inr a)),
      if_neg (fun a => hnc (Or.inl a)), if_neg (fun a => hnc (Or.inr a))]

lemma threshold_ladder_cases (x po : ℚ) (cfg : DecisionConfiguration) :
    threshold_ladder x po cfg = "raise" ∨ threshold_ladder x po cfg = "call" ∨
      threshold_ladder x po cfg = "fold" := by
  simp only [threshold_ladder]
  split_ifs <;> simp

lemma raise_cond_mono {a b po : ℚ} {cfg : DecisionConfiguration} (hab : a ≤ b)
    (h : raise_cond b po cfg) : raise_cond a po cfg := by
  rcases h with ⟨hR, her⟩ | ⟨hR, her, hM⟩
  · exact Or.inl ⟨lt_of_le_of_lt hab hR, her⟩
  · exact Or.inr ⟨lt_of_le_of_lt hab hR, her, lt_of_le_of_lt hab hM⟩

lemma call_cond_mono {a b po : ℚ} {cfg : DecisionConfiguration} (hab : a ≤ b)
    (h : call_cond b po cfg) : call_cond a po cfg := by
  rcases h with ⟨hC, hec⟩ | ⟨hC, hec, hM⟩
  · exact Or.inl ⟨lt_of_le_of_lt hab hC, hec⟩
  · exact Or.inr ⟨lt_of_le_of_lt hab hC, hec, lt_of_le_of_lt hab hM⟩

lemma threshold_ladder_antitone (po : ℚ) (cfg : DecisionConfiguration)
    {a b : ℚ} (hab : a ≤ b) :
    actionRank (threshold_ladder b po cfg) ≤
      actionRank (threshold_ladder a po cfg) := by
  rcases threshold_ladder_cases b po cfg with hb | hb | hb
  · have ha : threshold_ladder a po cfg = "raise" :=
      (threshold_ladder_eq_raise_iff a po cfg).mpr
        (raise_cond_mono hab ((threshold_ladder_eq_raise_iff b po cfg).mp hb))
    rw [hb, ha]
  · rcases threshold_ladder_cases a po cfg with ha | ha | ha
    · rw [hb, ha]; simp [actionRank]
    · rw [hb, ha]
    · exfalso
      obtain ⟨-, hcb⟩ := (threshold_ladder_eq_call_iff b po cfg).mp hb
      obtain ⟨-, hnc⟩ := (threshold_ladder_eq_fold_iff a po cfg).mp ha
      exact hnc (call_cond_mono hab hcb)
  · rw [hb]
    simp [actionRank]

/-! ## C1: monotonicity of the decision in the raw score -/

/-- C1: with all inputs but the raw score fixed, and every configuration
multiplier positive (all stage multipliers, the monster / draw / texture
multipliers, and a non-negative player-tighten strength), the action is
monotone in the raw score: lowering the raw score (a stronger hand) never
demotes the action in the order fold < call < raise.  Moreover the adjusted
score is the raw score times a non-negative constant that does not depend on
the raw score. -/
theorem decide_action_monotone_in_raw_score (np : ℤ)
    (hole board : List PCard) (po : ℚ) (cfg : DecisionConfiguration)
    (hsm : ∀ p ∈ cfg.stage_mult, (0:ℚ) < p.2)
    (hpts : 0 ≤ cfg.player_tighten_strength)
    (hm : 0 < cfg.monster_loosen_mult) (hd : 0 < cfg.draw_loosen_mult)
    (ht : 0 < cfg.texture_tighten_mult)
    {s1 s2 : ℚ} (hs : s1 ≤ s2) :
    actionRank (decide_action s2 np hole board po cfg) ≤
        actionRank (decide_action s1 np hole board po cfg) ∧
      adjusted_score s1 np hole board po cfg =
        s1 * adjusted_score 1 np hole board po cfg ∧
      0 ≤ adjusted_score 1 np hole board po cfg := by
  have hK := adjusted_score_one_nonneg np hole board po cfg hsm hpts hm hd ht
  refine ⟨?_, adjusted_score_factor s1 np hole board po cfg, hK⟩
  unfold decide_action
  rw [adjusted_score_factor s1, adjusted_score_factor s2]
  exact threshold_ladder_antitone po cfg (mul_le_mul_of_nonneg_right hs hK)

/-- Witness for C1 at a concrete instance: default configuration, a fixed
hole/board and pot odds, raw scores 100 ≤ 5000. -/
theorem decide_action_monotone_in_raw_score_witness :
    actionRank (decide_action 5000 6 [⟨14,'s'⟩, ⟨13,'s'⟩]
        [⟨2,'h'⟩, ⟨7,'c'⟩, ⟨9,'d'⟩] (1/10) default_cfg) ≤
        actionRank (decide_action 100 6 [⟨14,'s'⟩, ⟨13,'s'⟩]
          [⟨2,'h'⟩, ⟨7,'c'⟩, ⟨9,'d'⟩] (1/10) default_cfg) ∧
      adjusted_score 100 6 [⟨14,'s'⟩, ⟨13,'s'⟩] [⟨2,'h'⟩, ⟨7,'c'⟩, ⟨9,'d'⟩]
          (1/10) default_cfg =
        100 * adjusted_score 1 6 [⟨14,'s'⟩, ⟨13,'s'⟩]
          [⟨2,'h'⟩, ⟨7,'c'⟩, ⟨9,'d'⟩] (1/10) default_cfg ∧
      0 ≤ adjusted_score 1 6 [⟨14,'s'⟩, ⟨13,'s'⟩] [⟨2,'h'⟩, ⟨7,'c'⟩, ⟨9,'d'⟩]
        (1/10) default_cfg :=
  decide_action_monotone_in_raw_score 6 [⟨14,'s'⟩, ⟨13,'s'⟩]
    [⟨2,'h'⟩, ⟨7,'c'⟩, ⟨9,'d'⟩] (1/10) default_cfg
    (by intro p hp; fin_cases hp <;> norm_num)
    (by norm_num [default_cfg]) (by norm_num [default_cfg])
    (by norm_num [default_cfg]) (by norm_num [default_cfg])
    (by norm_num)

/-! ## C7: weak hand at high pot odds folds -/

/-- C7: with the default configuration, raw score 6000 and pot odds 0.80
(which exceed both the raise cap 0.35 and the call cap 0.70), the ladder
returns fold whenever the adjusted score is not a monster (not below half the
base raise score) — for every hole, board and player count. -/
theorem weak_score_high_pot_odds_folds (np : ℤ) (hole board : List PCard)
    (h : ¬ adjusted_score 6000 np hole board (8/10) default_cfg <
      1/2 * default_cfg.base_raise_score) :
    decide_action 6000 np hole board (8/10) default_cfg = "fold" := by
  unfold decide_action
  rw [threshold_ladder_eq_fold_iff]
  constructor
  · rintro (⟨-, her⟩ | ⟨-, -, hM⟩)
    · exact her (by norm_num [default_cfg])
    · exact h hM
  · rintro (⟨-, hec⟩ | ⟨-, -, hM⟩)
    · exact hec (by norm_num [default_cfg])
    · exact h hM

/-- Witness for C7: empty hole and board, two players; the adjusted score is
6000 · 1.3 = 7800, which is not below half the base raise score 1750. -/
theorem weak_score_high_pot_odds_folds_witness :
    decide_action 6000 2 [] [] (8/10) default_cfg = "fold" :=
  weak_score_high_pot_odds_folds 2 [] []
    (by norm_num [adjusted_score, default_cfg, get_game_stage, has_flush_draw,
      made_flush, has_straight_draw, _unique_sorted_ranks_with_wheel,
      texture_tighten_cond, paired_tighten_branch, monotone_tighten_branch,
      straighty_tighten_branch, straighty_gap_cond, analyze_board_texture])

/-! ## C6: pipeline validation precedes evaluation -/

/-- C6: the end-to-end pipeline rejects fewer than 3 recognized board cards
with an insufficient-board-cards error, and (when the board passes) a hole
input that does not resolve to exactly 2 cards with an invalid-hole-count
error — in both cases for every evaluator, i.e. before the external
hand-strength evaluator can contribute anything to the outcome. -/
theorem pipeline_validates_before_evaluator
    (board_human : List String) (hole_input : String) (np : ℤ) (ca pb : ℚ)
    (cfg : DecisionConfiguration) (ev : List String → List String → ℚ)
    (bts hts : List String)
    (hb : (board_human.filter (fun c => c ≠ "joker")).mapM convert_to_treys_format
      = Except.ok bts)
    (hh : ((pySplitOn [','] (pyReplace hole_input.toList " and ".toList [','])).map
        (fun c => String.mk (pyLower (pyStrip c)))).mapM convert_to_treys_format
      = Except.ok hts) :
    (bts.length < 3 →
      run_hand_analysis board_human hole_input np ca pb cfg ev =
        Except.error (PipeErr.insufficientBoardCards bts.length)) ∧
      (3 ≤ bts.length → hts.length ≠ 2 →
        run_hand_analysis board_human hole_input np ca pb cfg ev =
          Except.error PipeErr.invalidHoleCount) := by
  constructor
  · intro h3
    simp only [run_hand_analysis, hb, hh]
    rw [if_pos h3]
  · intro h3 h2
    simp only [run_hand_analysis, hb, hh]
    rw [if_neg (by omega), if_pos h2]

/-- Witness for C6: with a recognized 3-card board, the single-card hole
input `"ten of clubs"` makes the pipeline fail with the invalid-hole-count
error (under an arbitrary evaluator). -/
theorem pipeline_validates_before_evaluator_witness :
    run_hand_analysis ["two of hearts", "three of clubs", "four of spades"]
        "ten of clubs" 4 10 90 default_cfg (fun _ _ => 1) =
      Except.error PipeErr.invalidHoleCount :=
  (pipeline_validates_before_evaluator
      ["two of hearts", "three of clubs", "four of spades"] "ten of clubs"
      4 10 90 default_cfg (fun _ _ => 1) ["2h", "3c", "4s"] ["Tc"]
      (by rfl) (by rfl)).2 (by decide) (by decide)

/-! ## C8: round-trip of the 52 canonical tokens -/

instance : DecidableEq (Except ConvErr String) := fun a b =>
  match a, b with
  | Except.error x, Except.error y =>
    if h : x = y then isTrue (by rw [h]) else isFalse (fun hc => by cases hc; exact h rfl)
  | Except.ok x, Except.ok y =>
    if h : x = y then isTrue (by rw [h]) else isFalse (fun hc => by cases hc; exact h rfl)
  | Except.error _, Except.ok _ => isFalse (fun hc => by cases hc)
  | Except.ok _, Except.error _ => isFalse (fun hc => by cases hc)

/-- The `_rank_val` reading of a canonical token string: the rank value of
its uppercased first character under `_RANK_ORDER`. -/
def tok_rank_val (t : String) : Option ℕ :=
  _RANK_ORDER.lookup ((t.toList.head?.getD ' ').toUpper)

/-- The `_suit_char` reading of a canonical token string: its lowercased last
character. -/
def tok_suit_char (t : String) : Char :=
  (t.toList.getLast?.getD ' ').toLower

/-- Modelled from the spec: re-encoding a rank value into its canonical rank
character.  The source defines only the decoding direction (`_rank_val`,
`_suit_char`); the encoder is the inverse lookup of `_RANK_ORDER`. -/
def rank_char_of_val (v : ℕ) : Option Char :=
  (_RANK_ORDER.find? (fun p => p.2 == v)).map Prod.fst

/-- Decode a canonical token into its rank value and suit character and
re-encode the pair into a token. -/
def tok_roundtrip (t : String) : Option String :=
  (tok_rank_val t).bind (fun v =>
    (rank_char_of_val v).map (fun rc => String.mk [rc, tok_suit_char t]))

/-- C8: for each of the 52 standard canonical tokens (rank character + suit
character, enumerated through the rank-word and suit-word tables), parsing
the corresponding human-readable label yields exactly that token, and
decoding the token into its rank value and suit and re-encoding returns the
token unchanged. -/
theorem card_token_roundtrip :
    ∀ p ∈ _RANK_FROM_WORD, ∀ q ∈ _SUIT_FROM_WORD,
      convert_to_treys_format (p.1 ++ " of " ++ q.1) = Except.ok (p.2 ++ q.2) ∧
        tok_roundtrip (p.2 ++ q.2) = some (p.2 ++ q.2) := by
  decide

/-- Witness for C8 at the ace of spades: the label parses to `"As"` and the
token `"As"` round-trips to itself. -/
theorem card_token_roundtrip_witness :
    convert_to_treys_format "ace of spades" = Except.ok "As" ∧
      tok_roundtrip "As" = some "As" :=
  card_token_roundtrip ("ace", "A") (by decide) ("spades", "s") (by decide)

/-- Witness for C3: rank set {2,3,4,5} and window 2..6 — one rank missing,
span of the present ranks is 3, so the window is classified open-ended. -/
theorem straight_window_one_miss_witness :
    (straight_window_step [2,3,4,5] (false, false, false) 2 = (true, false, false) ↔
        (((List.range' 2 5).filter (fun r => r ∈ [2,3,4,5])).insertionSort
            (· ≤ ·)).getLast?.getD 0 -
          (((List.range' 2 5).filter (fun r => r ∈ [2,3,4,5])).insertionSort
            (· ≤ ·)).head?.getD 0 = 3) ∧
      (straight_window_step [2,3,4,5] (false, false, false) 2 = (false, true, false) ↔
        (((List.range' 2 5).filter (fun r => r ∈ [2,3,4,5])).insertionSort
            (· ≤ ·)).getLast?.getD 0 -
          (((List.range' 2 5).filter (fun r => r ∈ [2,3,4,5])).insertionSort
            (· ≤ ·)).head?.getD 0 ≠ 3) :=
  straight_window_one_miss [2,3,4,5] 2 (by decide)

/-- Witness for C5 at a one-card board. -/
theorem suit_distribution_exclusive_witness :
    (analyze_board_texture [⟨2,'c'⟩]).monotone.toNat +
      (analyze_board_texture [⟨2,'c'⟩]).two_tone.toNat +
      (analyze_board_texture [⟨2,'c'⟩]).rainbow.toNat = 1 :=
  suit_distribution_exclusive [⟨2,'c'⟩] (by decide)

/-- Witness for C9 at the board ace-two-three. -/
theorem ace_board_not_straighty_witness :
    (analyze_board_texture [⟨14,'s'⟩, ⟨2,'c'⟩, ⟨3,'d'⟩]).straighty = false :=
  ace_board_not_straighty [⟨14,'s'⟩, ⟨2,'c'⟩, ⟨3,'d'⟩] ⟨14,'s'⟩ (by decide)
    (by decide)

/-- Witness for C10 at a one-card hole and one-card board. -/
theorem straighty_gap_cond_unsat_witness :
    straighty_gap_cond [⟨2,'c'⟩] [⟨5,'d'⟩] = false ∧
      texture_tighten_cond [⟨2,'c'⟩] [⟨5,'d'⟩] =
        (paired_tighten_branch [⟨2,'c'⟩] [⟨5,'d'⟩] ||
          monotone_tighten_branch [⟨2,'c'⟩] [⟨5,'d'⟩]) :=
  straighty_gap_cond_unsat [⟨2,'c'⟩] [⟨5,'d'⟩] (by decide) (by decide)
